import Mathlib

/-!
Verification development for the my-registry container image registry
(NestJS, Docker Registry HTTP API v2).

The file shallowly embeds the storage engine of
src/src/registry/registry.service.ts (first, authoritative iteration:
the file-backed RegistryService with the module-level repositoryState
cache) together with the PATCH chunk handler of the controller.

Modelling conventions:
  - A repository directory is an association list from file name to file
    (content string and mtime in milliseconds).  All operations of the
    service act inside a single repository directory, so the state is the
    state of one repository.
  - Byte streams and file contents are Lean String values; file sizes are
    the UTF-8 byte counts of those strings, matching fs.stat on disk.
  - The module-level repositoryState cache holds, per repository, an
    optional manifest JSON value.  The blobs record of repositoryState is
    never written in this iteration (the assignment is commented out in
    the source), hence it is omitted: it is always empty.
  - JavaScript string primitives used by the source (split, startsWith,
    endsWith) are re-implemented on character lists so that the proofs
    can reason about them; their semantics matches the JS builtins.
  - crypto.createHash(sha256) is implemented bit-faithfully (FIPS 180-4)
    over the UTF-8 bytes of the hashed string.
  - JSON.parse / JSON.stringify are modelled by an executable parser and
    printer for a JSON value type; numbers are restricted to integers,
    which covers every document the registry manipulates.
-/

namespace MyRegistry

/-! ### JavaScript string primitives -/

/-- JS String.prototype.split with a one-character separator:
splitAux walks the character list accumulating the current segment. -/
def splitAux (sep : Char) : List Char → List Char → List (List Char)
  | [], acc => [acc.reverse]
  | c :: rest, acc =>
      if c = sep then acc.reverse :: splitAux sep rest []
      else splitAux sep rest (c :: acc)

/-- JS s.split(sep) for a single-character separator. -/
def jsSplit (sep : Char) (s : String) : List (List Char) :=
  splitAux sep s.data []

/-- JS String.prototype.startsWith on character lists. -/
def startsWithL : List Char → List Char → Bool
  | _, [] => true
  | [], _ :: _ => false
  | c :: cs, p :: ps => c = p && startsWithL cs ps

/-- JS s.startsWith(p). -/
def strStarts (s p : String) : Bool := startsWithL s.data p.data

/-- JS s.endsWith(p), via the reversed character lists. -/
def strEnds (s p : String) : Bool := startsWithL s.data.reverse p.data.reverse

/-- Whether the string contains a colon (decides if split(colon)[1] is
defined, i.e. whether the JS index access yields a string rather than
undefined). -/
def hasColon (s : String) : Bool := s.data.any (fun c => c = ':')

/-! ### UTF-8 byte length (fs.stat sizes, hash input) -/

/-- UTF-8 encoding of one Unicode code point, as byte values. -/
def utf8EncodeNat (n : Nat) : List Nat :=
  if n < 128 then [n]
  else if n < 2048 then [192 + n / 64, 128 + n % 64]
  else if n < 65536 then [224 + n / 4096, 128 + (n / 64) % 64, 128 + n % 64]
  else [240 + n / 262144, 128 + (n / 4096) % 64, 128 + (n / 64) % 64, 128 + n % 64]

/-- UTF-8 bytes of a string (the byte stream Node writes for it). -/
def utf8Bytes (s : String) : List Nat :=
  (s.data.map (fun c => utf8EncodeNat c.toNat)).flatten

/-- File size in bytes, as fs.stat reports for a file with this content. -/
def byteLen (s : String) : Nat := (utf8Bytes s).length

theorem utf8Bytes_append (a b : String) :
    utf8Bytes (a ++ b) = utf8Bytes a ++ utf8Bytes b := by
  simp [utf8Bytes, String.data_append]

theorem byteLen_append (a b : String) :
    byteLen (a ++ b) = byteLen a + byteLen b := by
  simp [byteLen, utf8Bytes_append]

/-! ### Repository directory: association list file system -/

/-- One file of a repository directory. -/
structure FsFile where
  content : String
  mtimeMs : Int
  deriving DecidableEq, Repr

/-- The directory listing of one repository. -/
abbrev Dir := List (String × FsFile)

/-- Look a file up by name (first match). -/
def lookupFile : Dir → String → Option FsFile
  | [], _ => none
  | (n, f) :: rest, k => if n = k then some f else lookupFile rest k

/-- fs.access style existence check. -/
def fileExistsIn (d : Dir) (k : String) : Bool := (lookupFile d k).isSome

/-- fs.writeFile / createWriteStream with truncation: replace the file in
place if present, append the entry otherwise. -/
def setFile : Dir → String → FsFile → Dir
  | [], k, v => [(k, v)]
  | (n, f) :: rest, k, v =>
      if n = k then (k, v) :: rest else (n, f) :: setFile rest k v

/-- fs.unlink: remove the (first) entry of that name. -/
def removeFile : Dir → String → Dir
  | [], _ => []
  | (n, f) :: rest, k => if n = k then rest else (n, f) :: removeFile rest k

/-- fs.rename src dst: move the file, overwriting dst; renaming a path to
itself is a no-op. -/
def renameFile (d : Dir) (src dst : String) : Dir :=
  match lookupFile d src with
  | none => d
  | some f => if src = dst then d else setFile (removeFile d src) dst f

/-! ### SHA-256 (crypto.createHash used by the service) -/

/-- Truncate to a 32-bit word. -/
def w32 (x : Nat) : Nat := x % 4294967296

/-- 32-bit modular addition. -/
def wadd (a b : Nat) : Nat := (a + b) % 4294967296

/-- 32-bit rotate right. -/
def rotr (n x : Nat) : Nat := w32 ((x >>> n) ||| (x <<< (32 - n)))

/-- FIPS 180-4 big Sigma 0. -/
def bsig0 (x : Nat) : Nat := rotr 2 x ^^^ rotr 13 x ^^^ rotr 22 x

/-- FIPS 180-4 big Sigma 1. -/
def bsig1 (x : Nat) : Nat := rotr 6 x ^^^ rotr 11 x ^^^ rotr 25 x

/-- FIPS 180-4 small sigma 0. -/
def ssig0 (x : Nat) : Nat := rotr 7 x ^^^ rotr 18 x ^^^ (x >>> 3)

/-- FIPS 180-4 small sigma 1. -/
def ssig1 (x : Nat) : Nat := rotr 17 x ^^^ rotr 19 x ^^^ (x >>> 10)

/-- Choice function. -/
def chF (x y z : Nat) : Nat := (x &&& y) ^^^ ((x ^^^ 4294967295) &&& z)

/-- Majority function. -/
def majF (x y z : Nat) : Nat := (x &&& y) ^^^ (x &&& z) ^^^ (y &&& z)

/-- The 64 SHA-256 round constants (decimal). -/
def K256 : List Nat :=
  [1116352408, 1899447441, 3049323471, 3921009573, 961987163,
   1508970993, 2453635748, 2870763221, 3624381080, 310598401,
   607225278, 1426881987, 1925078388, 2162078206, 2614888103,
   3248222580, 3835390401, 4022224774, 264347078, 604807628,
   770255983, 1249150122, 1555081692, 1996064986, 2554220882,
   2821834349, 2952996808, 3210313671, 3336571891, 3584528711,
   113926993, 338241895, 666307205, 773529912, 1294757372,
   1396182291, 1695183700, 1986661051, 2177026350, 2456956037,
   2730485921, 2820302411, 3259730800, 3345764771, 3516065817,
   3600352804, 4094571909, 275423344, 430227734, 506948616,
   659060556, 883997877, 958139571, 1322822218, 1537002063,
   1747873779, 1955562222, 2024104815, 2227730452, 2361852424,
   2428436474, 2756734187, 3204031479, 3329325298]

/-- The SHA-256 initial hash value (decimal). -/
def H256 : List Nat :=
  [1779033703, 3144134277, 1013904242, 2773480762,
   1359893119, 2600822924, 528734635, 1541459225]

/-- Message length in bits, as eight big-endian bytes. -/
def lenBytes (n : Nat) : List Nat :=
  [(n >>> 56) % 256, (n >>> 48) % 256, (n >>> 40) % 256, (n >>> 32) % 256,
   (n >>> 24) % 256, (n >>> 16) % 256, (n >>> 8) % 256, n % 256]

/-- SHA-256 padding of a byte message. -/
def padMsg (msg : List Nat) : List Nat :=
  let l := msg.length
  let r := (l + 1) % 64
  msg ++ [128] ++ List.replicate ((120 - r) % 64) 0 ++ lenBytes (l * 8)

/-- Group bytes into big-endian 32-bit words. -/
def toWords : List Nat → List Nat
  | b0 :: b1 :: b2 :: b3 :: rest =>
      (b0 * 16777216 + b1 * 65536 + b2 * 256 + b3) :: toWords rest
  | _ => []

/-- Group words into 16-word blocks (the padded input is always a
multiple of 16 words long, so the ragged case never fires). -/
def toBlocks : List Nat → List (List Nat)
  | [] => []
  | w0 :: w1 :: w2 :: w3 :: w4 :: w5 :: w6 :: w7 ::
    w8 :: w9 :: w10 :: w11 :: w12 :: w13 :: w14 :: w15 :: rest =>
      [w0, w1, w2, w3, w4, w5, w6, w7,
       w8, w9, w10, w11, w12, w13, w14, w15] :: toBlocks rest
  | ws => [ws]

/-- Extend a 16-word block by k further schedule words. -/
def sched (w : List Nat) : Nat → List Nat
  | 0 => w
  | k + 1 =>
      let i := w.length
      let next := wadd (wadd (ssig1 (w.getD (i - 2) 0)) (w.getD (i - 7) 0))
                       (wadd (ssig0 (w.getD (i - 15) 0)) (w.getD (i - 16) 0))
      sched (w ++ [next]) k

/-- One SHA-256 round on the 8-word working state. -/
def roundStep (st : List Nat) (wk : Nat × Nat) : List Nat :=
  match st with
  | [a, b, c, d, e, f, g, h] =>
      let t1 := wadd h (wadd (bsig1 e) (wadd (chF e f g) (wadd wk.2 wk.1)))
      let t2 := wadd (bsig0 a) (majF a b c)
      [wadd t1 t2, a, b, c, wadd d t1, e, f, g]
  | _ => st

/-- Compress one block into the running hash. -/
def compressBlock (hs : List Nat) (block : List Nat) : List Nat :=
  let ws := sched block 48
  let st := (ws.zip K256).foldl roundStep hs
  (hs.zip st).map (fun p => wadd p.1 p.2)

/-- SHA-256 digest of a byte message, as eight 32-bit words. -/
def sha256words (msg : List Nat) : List Nat :=
  (toBlocks (toWords (padMsg msg))).foldl compressBlock H256

/-- Lowercase hex digit. -/
def hexDigit (n : Nat) : Char :=
  if n < 10 then Char.ofNat (48 + n) else Char.ofNat (87 + n)

/-- Eight hex digits of a 32-bit word. -/
def wordHex (w : Nat) : List Char :=
  [hexDigit ((w >>> 28) % 16), hexDigit ((w >>> 24) % 16),
   hexDigit ((w >>> 20) % 16), hexDigit ((w >>> 16) % 16),
   hexDigit ((w >>> 12) % 16), hexDigit ((w >>> 8) % 16),
   hexDigit ((w >>> 4) % 16), hexDigit (w % 16)]

/-- Digest of a byte message as the usual 64-character hex string. -/
def sha256hex (msg : List Nat) : String :=
  String.mk ((sha256words msg).map wordHex).flatten

/-- crypto.createHash(sha256).update(s).digest(hex) for a string input:
the hash of its UTF-8 bytes. -/
def sha256hexStr (s : String) : String := sha256hex (utf8Bytes s)

/-! ### JSON values (JSON.parse / JSON.stringify)

JSON numbers are restricted to integers; every document the registry
manipulates (manifests with digest strings, media types and sizes) stays
inside this fragment.  Object field order is insertion order with
last-value-wins on duplicate keys, matching JSON.parse. -/

mutual

inductive Json where
  | null
  | bool (b : Bool)
  | num (n : Int)
  | str (s : String)
  | arr (elems : JsonList)
  | obj (fields : JsonFields)

inductive JsonList where
  | nil
  | cons (hd : Json) (tl : JsonList)

inductive JsonFields where
  | nil
  | cons (key : String) (val : Json) (tl : JsonFields)

end

/-- The opening curly bracket character. -/
def openBraceC : Char := Char.ofNat 123

/-- The closing curly bracket character. -/
def closeBraceC : Char := Char.ofNat 125

/-- JS truthiness of a JSON value (null, false, 0 and the empty string
are falsy). -/
def jsTruthy : Json → Bool
  | .null => false
  | .bool b => b
  | .num n => !(n = 0)
  | .str s => !(s = "")
  | .arr _ => true
  | .obj _ => true

/-- First field of the given name. -/
def fieldsLookup : JsonFields → String → Option Json
  | .nil, _ => none
  | .cons k v rest, key => if k = key then some v else fieldsLookup rest key

/-- Insert a field, replacing in place on a duplicate key
(JSON.parse object semantics). -/
def insertField : JsonFields → String → Json → JsonFields
  | .nil, k, v => .cons k v .nil
  | .cons k2 v2 rest, k, v =>
      if k2 = k then .cons k v rest else .cons k2 v2 (insertField rest k v)

/-- JSON.stringify escaping of one character. -/
def quoteChar (c : Char) : List Char :=
  if c = '"' then ['\\', '"']
  else if c = '\\' then ['\\', '\\']
  else if c = '\n' then ['\\', 'n']
  else if c = Char.ofNat 13 then ['\\', 'r']
  else if c = '\t' then ['\\', 't']
  else if c = Char.ofNat 8 then ['\\', 'b']
  else if c = Char.ofNat 12 then ['\\', 'f']
  else if c.toNat < 32 then
    ['\\', 'u', '0', '0', hexDigit (c.toNat / 16), hexDigit (c.toNat % 16)]
  else [c]

/-- JSON.stringify of a string value. -/
def quoteStr (s : String) : String :=
  "\"" ++ String.mk (s.data.map quoteChar).flatten ++ "\""

mutual

/-- JSON.stringify (no indentation), as the service invokes it. -/
def stringifyJson : Json → String
  | .null => "null"
  | .bool true => "true"
  | .bool false => "false"
  | .num n => toString n
  | .str s => quoteStr s
  | .arr es => "[" ++ stringifyArr es ++ "]"
  | .obj fs => String.mk [openBraceC] ++ stringifyFields fs ++ String.mk [closeBraceC]

/-- Comma-separated stringification of array elements. -/
def stringifyArr : JsonList → String
  | .nil => ""
  | .cons v .nil => stringifyJson v
  | .cons v (.cons v2 vs) => stringifyJson v ++ "," ++ stringifyArr (.cons v2 vs)

/-- Comma-separated stringification of object fields. -/
def stringifyFields : JsonFields → String
  | .nil => ""
  | .cons k v .nil => quoteStr k ++ ":" ++ stringifyJson v
  | .cons k v (.cons k2 v2 fs) =>
      quoteStr k ++ ":" ++ stringifyJson v ++ "," ++ stringifyFields (.cons k2 v2 fs)

end

/-- JSON whitespace skipping. -/
def skipWs (l : List Char) : List Char :=
  l.dropWhile (fun c => c = ' ' || c = '\t' || c = '\n' || c = Char.ofNat 13)

/-- Hex digit value of a character, if any. -/
def hexVal (c : Char) : Option Nat :=
  if 48 ≤ c.toNat && c.toNat ≤ 57 then some (c.toNat - 48)
  else if 97 ≤ c.toNat && c.toNat ≤ 102 then some (c.toNat - 87)
  else if 65 ≤ c.toNat && c.toNat ≤ 70 then some (c.toNat - 55)
  else none

/-- Decimal digit test. -/
def isDigitChar (c : Char) : Bool := 48 ≤ c.toNat && c.toNat ≤ 57

/-- Parse the body of a JSON string literal after its opening quote,
handling the standard escapes. -/
def parseStrAux : List Char → List Char → Option (String × List Char)
  | [], _ => none
  | c :: rest, acc =>
      if c = '"' then some (String.mk acc.reverse, rest)
      else if c = '\\' then
        match rest with
        | [] => none
        | e :: rest2 =>
            if e = '"' then parseStrAux rest2 ('"' :: acc)
            else if e = '\\' then parseStrAux rest2 ('\\' :: acc)
            else if e = '/' then parseStrAux rest2 ('/' :: acc)
            else if e = 'b' then parseStrAux rest2 (Char.ofNat 8 :: acc)
            else if e = 'f' then parseStrAux rest2 (Char.ofNat 12 :: acc)
            else if e = 'n' then parseStrAux rest2 ('\n' :: acc)
            else if e = 'r' then parseStrAux rest2 (Char.ofNat 13 :: acc)
            else if e = 't' then parseStrAux rest2 ('\t' :: acc)
            else if e = 'u' then
              match rest2 with
              | h1 :: h2 :: h3 :: h4 :: rest3 =>
                  match hexVal h1, hexVal h2, hexVal h3, hexVal h4 with
                  | some a, some b, some c2, some d =>
                      parseStrAux rest3
                        (Char.ofNat (a * 4096 + b * 256 + c2 * 16 + d) :: acc)
                  | _, _, _, _ => none
              | _ => none
            else none
      else parseStrAux rest (c :: acc)

/-- Parse a nonempty run of decimal digits. -/
def parseNatDigits (l : List Char) : Option (Nat × List Char) :=
  let ds := l.takeWhile isDigitChar
  if ds.isEmpty then none
  else some (ds.foldl (fun acc c => acc * 10 + (c.toNat - 48)) 0, l.drop ds.length)

mutual

/-- Recursive-descent JSON value parser (fuel-indexed). -/
def parseVal : Nat → List Char → Option (Json × List Char)
  | 0, _ => none
  | fuel + 1, l =>
      match skipWs l with
      | [] => none
      | c :: rest =>
          if c = 'n' then
            match rest with
            | 'u' :: 'l' :: 'l' :: r => some (.null, r)
            | _ => none
          else if c = 't' then
            match rest with
            | 'r' :: 'u' :: 'e' :: r => some (.bool true, r)
            | _ => none
          else if c = 'f' then
            match rest with
            | 'a' :: 'l' :: 's' :: 'e' :: r => some (.bool false, r)
            | _ => none
          else if c = '"' then
            match parseStrAux rest [] with
            | some (s, r) => some (.str s, r)
            | none => none
          else if c = '-' then
            match parseNatDigits rest with
            | some (n, r) => some (.num (-(n : Int)), r)
            | none => none
          else if isDigitChar c then
            match parseNatDigits (c :: rest) with
            | some (n, r) => some (.num (n : Int), r)
            | none => none
          else if c = '[' then
            match skipWs rest with
            | ']' :: r => some (.arr .nil, r)
            | r => match parseElems fuel r with
                   | some (es, r2) => some (.arr es, r2)
                   | none => none
          else if c = openBraceC then
            match skipWs rest with
            | [] => none
            | c2 :: r =>
                if c2 = closeBraceC then some (.obj .nil, r)
                else match parseMembers fuel (c2 :: r) .nil with
                     | some (fs, r2) => some (.obj fs, r2)
                     | none => none
          else none

/-- Parse the elements of a nonempty array, after the opening bracket. -/
def parseElems : Nat → List Char → Option (JsonList × List Char)
  | 0, _ => none
  | fuel + 1, l =>
      match parseVal fuel l with
      | none => none
      | some (v, r) =>
          match skipWs r with
          | ',' :: r2 =>
              match parseElems fuel r2 with
              | some (vs, r3) => some (.cons v vs, r3)
              | none => none
          | ']' :: r2 => some (.cons v .nil, r2)
          | _ => none

/-- Parse the members of a nonempty object, after the opening bracket. -/
def parseMembers : Nat → List Char → JsonFields → Option (JsonFields × List Char)
  | 0, _, _ => none
  | fuel + 1, l, acc =>
      match skipWs l with
      | [] => none
      | c :: r =>
          if c = '"' then
            match parseStrAux r [] with
            | none => none
            | some (k, r2) =>
                match skipWs r2 with
                | ':' :: r3 =>
                    match parseVal fuel r3 with
                    | none => none
                    | some (v, r4) =>
                        let acc2 := insertField acc k v
                        match skipWs r4 with
                        | ',' :: r5 => parseMembers fuel r5 acc2
                        | [] => none
                        | c2 :: r5 =>
                            if c2 = closeBraceC then some (acc2, r5) else none
                | _ => none
          else none

end

/-- JSON.parse: parse the whole string; trailing non-whitespace or any
syntax error yields none (the JS exception). -/
def parseJson (s : String) : Option Json :=
  match parseVal (s.data.length + 1) s.data with
  | some (v, rest) => if skipWs rest = [] then some v else none
  | none => none

/-! ### Registry state and operations (registry.service.ts, first
iteration, plus the PATCH handler of registry.controller.ts)

The state is that of a single repository: its directory listing plus the
entry of the module-level repositoryState cache for its name.  The blobs
record of repositoryState is omitted because the only assignment to it is
commented out in this iteration, so it is permanently empty. -/

/-- Per-repository registry state. -/
structure RegState where
  files : Dir
  manifestCache : Option Json

/-- digest.split(colon)[1] of getBlobPath and completeBlobUpload.  When
the digest has no colon the JS index access is undefined and the
subsequent path.join throws a TypeError; every theorem below applies this
only to digests containing a colon, so the empty-string fallback is never
reached. -/
def digestHash (digest : String) : String :=
  match (jsSplit ':' digest).drop 1 with
  | [] => ""
  | h :: _ => String.mk h

/-- getBlobPath: the blob file name inside the repository directory. -/
def getBlobPath (digest : String) : String := digestHash digest

/-- Result record of checkBlobExists.  The source names the first field
exists, which is reserved in Lean; it is called present here. -/
structure BlobInfo where
  present : Bool
  size : Option Nat
  path : Option String
  deriving DecidableEq, Repr

/-- checkBlobExists: stat the blob file addressed by the digest. -/
def checkBlobExists (s : RegState) (digest : String) : BlobInfo :=
  let p := getBlobPath digest
  match lookupFile s.files p with
  | some fl => ⟨true, some (byteLen fl.content), some p⟩
  | none => ⟨false, none, none⟩

/-- GET blob: the bytes streamed for the digest, if the file exists. -/
def readBlob (s : RegState) (digest : String) : Option String :=
  (lookupFile s.files (getBlobPath digest)).map FsFile.content

/-- createUploadSession: write an empty uuid.tmp receptacle. -/
def createUploadSession (s : RegState) (uuid : String) (now : Int) : RegState :=
  { s with files := setFile s.files (uuid ++ ".tmp") ⟨"", now⟩ }

/-- The PATCH handler: if the receptacle file is missing the session is
unknown (404, no write); otherwise append the chunk and report the
resulting file size (the Range header is 0..size-1, offset = size). -/
def appendChunk (s : RegState) (uuid chunk : String) (now : Int) :
    RegState × Option Nat :=
  let tmp := uuid ++ ".tmp"
  match lookupFile s.files tmp with
  | none => (s, none)
  | some fl =>
      let c2 := fl.content ++ chunk
      ({ s with files := setFile s.files tmp ⟨c2, now⟩ }, some (byteLen c2))

/-- Fold of the PATCH handler over a chunk sequence, collecting each
reported offset. -/
def appendChunks : RegState → String → List String → Int →
    RegState × List (Option Nat)
  | s, _, [], _ => (s, [])
  | s, uuid, c :: cs, now =>
      let r := appendChunk s uuid c now
      let rs := appendChunks r.1 uuid cs now
      (rs.1, r.2 :: rs.2)

/-- Result record of the success/error operations of the service. -/
structure OpResult where
  success : Bool
  error : Option String
  deriving DecidableEq, Repr

/-- completeBlobUpload: rename uuid.tmp to the file named by the hash
part of the claimed digest when the receptacle exists, and report
success; a missing receptacle is skipped silently and also reports
success.  No digest of the content is ever computed. -/
def completeBlobUpload (s : RegState) (uuid digest : String) :
    RegState × OpResult :=
  let tmp := uuid ++ ".tmp"
  let finalPath := digestHash digest
  if fileExistsIn s.files tmp then
    ({ s with files := renameFile s.files tmp finalPath }, ⟨true, none⟩)
  else (s, ⟨true, none⟩)

/-- deleteBlob (the blobs record of the cache is permanently empty, so
its conditional delete is a no-op and is omitted). -/
def deleteBlob (s : RegState) (digest : String) : RegState × OpResult :=
  let p := getBlobPath digest
  if fileExistsIn s.files p then
    ({ s with files := removeFile s.files p }, ⟨true, none⟩)
  else (s, ⟨false, some "Blob not found"⟩)

/-- getManifestFilePath: tag or digest reference to the manifest file
name. -/
def getManifestFilePath (reference : String) : String :=
  "manifests-" ++ reference ++ ".json"

/-- Default manifest media type of the service. -/
def defaultMediaType : String :=
  "application/vnd.docker.distribution.manifest.v2+json"

/-- manifest.mediaType with the default fallback.  A falsy or missing
mediaType field falls back; non-string truthy values do not occur in
registry manifests. -/
def mediaTypeOf (m : Json) : String :=
  match m with
  | .obj fs =>
      match fieldsLookup fs "mediaType" with
      | some (.str t) => if t = "" then defaultMediaType else t
      | _ => defaultMediaType
  | _ => defaultMediaType

/-- Outcome of getManifest: a manifest with its media type, a 404, or an
exception escaping the handler (JSON.parse failure, or the TypeError of
reading mediaType of null). -/
inductive ManifestResult where
  | found (m : Json) (mediaType : String)
  | notFound
  | thrown

/-- getManifest: serve the cached manifest of the repository when it is
truthy, whatever the reference; otherwise load manifests-reference.json,
cache it and serve it. -/
def getManifest (s : RegState) (reference : String) :
    RegState × ManifestResult :=
  let load :=
    match lookupFile s.files (getManifestFilePath reference) with
    | none => (s, ManifestResult.notFound)
    | some fl =>
        match parseJson fl.content with
        | none => (s, ManifestResult.thrown)
        | some m =>
            let s2 := { s with manifestCache := some m }
            match m with
            | .null => (s2, ManifestResult.thrown)
            | _ => (s2, ManifestResult.found m (mediaTypeOf m))
  match s.manifestCache with
  | some m => if jsTruthy m then (s, .found m (mediaTypeOf m)) else load
  | none => load

/-- saveManifestToCache: read the manifest file back, parse it, cache the
parsed value and return sha256 of its JSON.stringify re-serialization
(none models the exception when the file is unreadable or unparsable). -/
def saveManifestToCache (s : RegState) (filePath : String) :
    RegState × Option String :=
  match lookupFile s.files filePath with
  | none => (s, none)
  | some fl =>
      match parseJson fl.content with
      | none => (s, none)
      | some m =>
          ({ s with manifestCache := some m },
           some ("sha256:" ++ sha256hexStr (stringifyJson m)))

/-- The manifest PUT flow of the controller: write the body to
manifests-reference.json, then saveManifestToCache on that file; the
returned digest is the Docker-Content-Digest header. -/
def putManifest (s : RegState) (reference body : String) (now : Int) :
    RegState × Option String :=
  let fp := getManifestFilePath reference
  saveManifestToCache { s with files := setFile s.files fp ⟨body, now⟩ } fp

/-! ### Garbage collection (runGarbageCollection) -/

/-- File names the blob sweep considers: not manifest-prefixed, not a
session receptacle, not a json document. -/
def isBlobFileName (f : String) : Bool :=
  !(strStarts f "manifests-") && !(strEnds f ".tmp") && !(strEnds f ".json")

/-- File names the mark phase reads as manifests. -/
def isManifestFileName (f : String) : Bool :=
  strStarts f "manifests-" && strEnds f ".json"

/-- The additions of referencedDigests.add(d.split(colon)[1]) for one
digest property value d, with the thrown flag: a truthy non-string value
has no split method and raises a TypeError.  A colonless string adds
undefined to the set, which never matches a file name, hence adds
nothing. -/
def addDigestVal : Json → List String × Bool
  | .str t =>
      if t = "" then ([], false)
      else (if hasColon t then [digestHash t] else [], false)
  | .num n => if n = 0 then ([], false) else ([], true)
  | .bool b => ([], b)
  | .null => ([], false)
  | .arr _ => ([], true)
  | .obj _ => ([], true)

/-- The manifest.config?.digest additions.  Reading config of null raises
a TypeError; the optional chain yields undefined on a missing or null
config and on a config without a digest property. -/
def configRefs : Json → List String × Bool
  | .null => ([], true)
  | .obj fs =>
      match fieldsLookup fs "config" with
      | none => ([], false)
      | some .null => ([], false)
      | some (.obj cfs) =>
          match fieldsLookup cfs "digest" with
          | none => ([], false)
          | some d => addDigestVal d
      | some _ => ([], false)
  | _ => ([], false)

/-- The layer.digest additions for one element of manifest.layers.
Reading digest of null raises. -/
def layerRef : Json → List String × Bool
  | .null => ([], true)
  | .obj fs =>
      match fieldsLookup fs "digest" with
      | none => ([], false)
      | some d => addDigestVal d
  | _ => ([], false)

/-- Left-to-right walk over the layers array, stopping at the first
raised TypeError but keeping the additions made before it. -/
def layersFold : JsonList → List String × Bool
  | .nil => ([], false)
  | .cons e rest =>
      match layerRef e with
      | (r, true) => (r, true)
      | (r, false) =>
          let p := layersFold rest
          (r ++ p.1, p.2)

/-- The manifest.layers additions: skipped when the property is missing
or falsy; a for-of over a truthy non-array non-string raises; a string
iterates characters, none of which has a digest property. -/
def layersRefs : Json → List String × Bool
  | .obj fs =>
      match fieldsLookup fs "layers" with
      | none => ([], false)
      | some l =>
          if jsTruthy l then
            match l with
            | .arr es => layersFold es
            | .str _ => ([], false)
            | _ => ([], true)
          else ([], false)
  | _ => ([], false)

/-- All referenced-digest additions of one parsed manifest, with the
thrown flag; layers are only reached when the config part did not
raise. -/
def extractRefs (m : Json) : List String × Bool :=
  match configRefs m with
  | (r, true) => (r, true)
  | (r, false) =>
      let p := layersRefs m
      (r ++ p.1, p.2)

/-- The manifest file names of a directory listing, in order. -/
def manifestNames (d : Dir) : List String :=
  (d.map Prod.fst).filter isManifestFileName

/-- The referenced digests contributed by one manifest file (the incomplete
additions made before a TypeError are kept, per the JS Set). -/
def refsOfManifest (d : Dir) (mf : String) : List String :=
  match lookupFile d mf with
  | none => []
  | some fl =>
      match parseJson fl.content with
      | none => []
      | some m => (extractRefs m).1

/-- Whether reading this manifest records a parse error (readFile
failure, JSON.parse failure, or a TypeError during extraction). -/
def manifestFails (d : Dir) (mf : String) : Bool :=
  match lookupFile d mf with
  | none => true
  | some fl =>
      match parseJson fl.content with
      | none => true
      | some m => (extractRefs m).2

/-- The mark phase: the contents of referencedDigests after the manifest
loop (as a list; membership is what the Set provides). -/
def markReferenced (d : Dir) : List String :=
  ((manifestNames d).map (refsOfManifest d)).flatten

/-- The error entries accumulated by the manifest loop. -/
def markErrors (d : Dir) : List String :=
  ((manifestNames d).filter (manifestFails d)).map
    (fun mf => "Failed to parse manifest: " ++ mf)

/-- Result of one garbage-collection run. -/
structure GCOut where
  state : RegState
  deleted : List String
  errors : List String

/-- Staleness test of the tmp sweep: mtime strictly older than one hour
before now. -/
def isStale (d : Dir) (f : String) (nowMs : Int) : Bool :=
  match lookupFile d f with
  | some fl => fl.mtimeMs < nowMs - 3600000
  | none => false

/-- The blob sweep victims: the listed blob-named files whose name the
referenced set does not contain, in listing order. -/
def deadBlobsOf (d : Dir) : List String :=
  ((d.map Prod.fst).filter isBlobFileName).filter
    (fun f => !((markReferenced d).contains f))

/-- The tmp sweep victims: the listed tmp receptacles whose mtime is
stale, in listing order. -/
def staleTmpsOf (d : Dir) (nowMs : Int) : List String :=
  ((d.map Prod.fst).filter (fun f => strEnds f ".tmp")).filter
    (fun f => isStale d f nowMs)

/-- runGarbageCollection: mark referenced digests from all manifest
files, delete every non-referenced blob file, then delete every stale
tmp receptacle.  The file listing is read once up front; deletions are
recorded in loop order (blob sweep first, then tmp sweep).  In this
model unlink and stat of a listed file cannot fail, so the only errors
are the manifest parse errors of the mark phase. -/
def runGarbageCollection (s : RegState) (nowMs : Int) : GCOut :=
  let deadBlobs := deadBlobsOf s.files
  let staleTmps := staleTmpsOf s.files nowMs
  { state := { s with
      files := s.files.filter
        (fun p => !(deadBlobs.contains p.1) && !(staleTmps.contains p.1)) },
    deleted := deadBlobs ++ staleTmps,
    errors := markErrors s.files }

/-! ### Helper lemmas: the file-system model -/

theorem lookupFile_setFile_self (d : Dir) (k : String) (v : FsFile) :
    lookupFile (setFile d k v) k = some v := by
  induction d with
  | nil => simp [setFile, lookupFile]
  | cons p rest ih =>
      by_cases h : p.1 = k
      · simp [setFile, h, lookupFile]
      · simp [setFile, h, lookupFile, ih]

theorem lookupFile_setFile_ne (d : Dir) (k : String) (v : FsFile)
    (k2 : String) (h : ¬ k = k2) :
    lookupFile (setFile d k v) k2 = lookupFile d k2 := by
  induction d with
  | nil => simp [setFile, lookupFile, h]
  | cons p rest ih =>
      by_cases h2 : p.1 = k
      · subst h2
        simp [setFile, lookupFile, h]
      · simp [setFile, h2, lookupFile, ih]

theorem lookupFile_none_of_not_mem (d : Dir) (k : String)
    (h : k ∉ d.map Prod.fst) : lookupFile d k = none := by
  induction d with
  | nil => rfl
  | cons p rest ih =>
      simp only [List.map_cons, List.mem_cons] at h
      push_neg at h
      have h1 : ¬ p.1 = k := fun hh => h.1 hh.symm
      simp [lookupFile, h1, ih h.2]

theorem lookupFile_removeFile_self (d : Dir) (k : String)
    (hnd : (d.map Prod.fst).Nodup) : lookupFile (removeFile d k) k = none := by
  induction d with
  | nil => rfl
  | cons p rest ih =>
      obtain ⟨n, f⟩ := p
      simp only [List.map_cons, List.nodup_cons] at hnd
      by_cases h : n = k
      · subst h
        simp only [removeFile, if_pos rfl]
        exact lookupFile_none_of_not_mem rest n hnd.1
      · simp [removeFile, h, lookupFile, ih hnd.2]

theorem lookupFile_of_mem_nodup (d : Dir) (k : String) (v : FsFile)
    (h : (k, v) ∈ d) (hnd : (d.map Prod.fst).Nodup) :
    lookupFile d k = some v := by
  induction d with
  | nil => simp at h
  | cons p rest ih =>
      simp only [List.map_cons, List.nodup_cons] at hnd
      rcases List.mem_cons.mp h with h1 | h1
      · simp [lookupFile, ← h1]
      · have hk : ¬ p.1 = k := by
          intro he
          exact hnd.1 (he ▸ List.mem_map_of_mem Prod.fst h1)
        simp [lookupFile, hk, ih h1 hnd.2]

theorem lookupFile_filterKeys (d : Dir) (q : String → Bool) (k : String) :
    lookupFile (d.filter (fun p => q p.1)) k
      = if q k = true then lookupFile d k else none := by
  induction d with
  | nil => simp [lookupFile]
  | cons p rest ih =>
      obtain ⟨n, f⟩ := p
      by_cases hk : n = k
      · subst hk
        by_cases hq : q n = true
        · simp [List.filter_cons, hq, lookupFile]
        · simp only [Bool.not_eq_true] at hq
          simp [List.filter_cons, hq, lookupFile, ih]
      · by_cases hq : q n = true
        · simp [List.filter_cons, hq, lookupFile, hk, ih]
        · simp only [Bool.not_eq_true] at hq
          simp [List.filter_cons, hq, lookupFile, hk, ih]

theorem map_fst_filterKeys (d : Dir) (q : String → Bool) :
    (d.filter (fun p => q p.1)).map Prod.fst = (d.map Prod.fst).filter q := by
  induction d with
  | nil => rfl
  | cons p rest ih =>
      by_cases hq : q p.1 = true
      · simp [List.filter_cons, hq, ih]
      · simp only [Bool.not_eq_true] at hq
        simp [List.filter_cons, hq, ih]

theorem containsStr_iff (l : List String) (a : String) :
    l.contains a = true ↔ a ∈ l := by
  simp [List.contains]

/-! ### Helper lemmas: strings and digests -/

/-- Concatenation of a chunk list, in order. -/
def joinStr : List String → String
  | [] => ""
  | c :: cs => c ++ joinStr cs

theorem byteLen_joinStr (l : List String) :
    byteLen (joinStr l) = (l.map byteLen).sum := by
  induction l with
  | nil => simp [joinStr]; rfl
  | cons c cs ih => simp [joinStr, byteLen_append, ih]

theorem strEnds_json_not_tmp (f : String) (h : strEnds f ".json" = true) :
    strEnds f ".tmp" = false := by
  have hj : (".json".data.reverse) = ['n', 'o', 's', 'j', '.'] := by rfl
  have ht : (".tmp".data.reverse) = ['p', 'm', 't', '.'] := by rfl
  unfold strEnds at *
  rw [hj] at h
  rw [ht]
  cases hr : f.data.reverse with
  | nil => rw [hr] at h; simp [startsWithL] at h
  | cons c t =>
      rw [hr] at h
      simp only [startsWithL, Bool.and_eq_true, decide_eq_true_eq] at h
      simp [startsWithL, h.1]

/-- The part of a string after its first colon (the claim-level notion of
the hash component of a digest string). -/
def afterFirstColon (s : String) : String :=
  String.mk ((s.data.dropWhile (fun c => !(c = ':'))).drop 1)

theorem splitAux_structure (sep : Char) (l acc : List Char) :
    splitAux sep l acc
      = (acc.reverse ++ l.takeWhile (fun c => !(c = sep))) ::
        (if l.any (fun c => c = sep)
         then splitAux sep ((l.dropWhile (fun c => !(c = sep))).drop 1) []
         else []) := by
  induction l generalizing acc with
  | nil => simp [splitAux]
  | cons c t ih =>
      by_cases h : c = sep
      · subst h
        simp [splitAux, List.takeWhile_cons, List.dropWhile_cons]
      · simp only [splitAux, if_neg h, ih (c :: acc), List.takeWhile_cons,
          List.dropWhile_cons, List.any_cons, decide_eq_true_eq, h,
          List.reverse_cons, List.append_assoc, List.cons_append,
          List.nil_append]
        simp [h]

theorem digestHash_eq_of_hasColon (s : String) (h : hasColon s = true) :
    digestHash s
      = String.mk ((afterFirstColon s).data.takeWhile (fun c => !(c = ':'))) := by
  unfold digestHash jsSplit afterFirstColon
  rw [splitAux_structure]
  have ha : s.data.any (fun c => c = ':') = true := by
    unfold hasColon at h
    simpa using h
  rw [if_pos ha, splitAux_structure]
  simp

theorem digestHash_eq_of_afterFirstColon (d1 d2 : String)
    (h1 : hasColon d1 = true) (h2 : hasColon d2 = true)
    (h : afterFirstColon d1 = afterFirstColon d2) :
    digestHash d1 = digestHash d2 := by
  rw [digestHash_eq_of_hasColon d1 h1, digestHash_eq_of_hasColon d2 h2, h]

theorem hexDigit_ne_colon_dot (n : Nat) :
    ¬ hexDigit (n % 16) = ':' ∧ ¬ hexDigit (n % 16) = '.' := by
  have hlt : n % 16 < 16 := Nat.mod_lt _ (by omega)
  set m := n % 16 with hm
  clear_value m
  interval_cases m <;> exact ⟨by decide, by decide⟩

theorem mem_wordHex (c : Char) (w : Nat) (h : c ∈ wordHex w) :
    ¬ c = ':' ∧ ¬ c = '.' := by
  simp only [wordHex, List.mem_cons, List.not_mem_nil, or_false] at h
  rcases h with h | h | h | h | h | h | h | h <;>
    · subst h
      exact hexDigit_ne_colon_dot _

theorem mem_sha256hex (c : Char) (msg : List Nat)
    (h : c ∈ (sha256hex msg).data) : ¬ c = ':' ∧ ¬ c = '.' := by
  unfold sha256hex at h
  simp only [String.mk] at h
  rw [List.mem_flatten] at h
  obtain ⟨l, hl, hc⟩ := h
  rw [List.mem_map] at hl
  obtain ⟨w, _, hw⟩ := hl
  exact mem_wordHex c w (hw ▸ hc)

theorem sha256hex_no_colon (msg : List Nat) :
    hasColon (sha256hex msg) = false := by
  unfold hasColon
  rw [List.any_eq_false]
  intro c hc
  simpa using (mem_sha256hex c msg hc).1

theorem splitAux_no_sep (sep : Char) (l acc : List Char)
    (h : ∀ c ∈ l, ¬ c = sep) : splitAux sep l acc = [acc.reverse ++ l] := by
  rw [splitAux_structure]
  have ha : l.any (fun c => c = sep) = false := by
    rw [List.any_eq_false]
    intro c hc
    simpa using h c hc
  rw [ha]
  have ht : l.takeWhile (fun c => !(c = sep)) = l :=
    List.takeWhile_eq_self_iff.mpr (by intro x hx; simp [h x hx])
  rw [ht]
  simp

theorem digestHash_sha256_concat (h : String) (hnc : hasColon h = false) :
    digestHash ("sha256:" ++ h) = h := by
  have hd : ("sha256:" ++ h).data
      = ['s', 'h', 'a', '2', '5', '6'] ++ ':' :: h.data := by
    rw [String.data_append]
    rfl
  have hno : ∀ c ∈ h.data, ¬ c = ':' := by
    intro c hc he
    have : hasColon h = true := by
      unfold hasColon
      rw [List.any_eq_true]
      exact ⟨c, hc, by simpa using he⟩
    simp [this] at hnc
  unfold digestHash jsSplit
  rw [hd]
  have hstep : splitAux ':' (['s', 'h', 'a', '2', '5', '6'] ++ ':' :: h.data) []
      = ([].reverse ++ ['s', 'h', 'a', '2', '5', '6']) :: splitAux ':' h.data [] := by
    simp [splitAux]
  rw [hstep, splitAux_no_sep ':' h.data [] hno]
  rfl

/-! ### Helper lemmas: garbage collection -/

theorem mem_deadBlobsOf (d : Dir) (f : String) :
    f ∈ deadBlobsOf d
      ↔ f ∈ d.map Prod.fst ∧ isBlobFileName f = true
          ∧ f ∉ markReferenced d := by
  simp only [deadBlobsOf, List.mem_filter, Bool.not_eq_true', and_assoc]
  constructor
  · rintro ⟨h1, h2, h3⟩
    refine ⟨h1, h2, fun hm => ?_⟩
    rw [(containsStr_iff _ _).mpr hm] at h3
    simp at h3
  · rintro ⟨h1, h2, h3⟩
    refine ⟨h1, h2, ?_⟩
    cases hc : (markReferenced d).contains f with
    | false => rfl
    | true => exact absurd ((containsStr_iff _ _).mp hc) h3

theorem mem_staleTmpsOf (d : Dir) (nowMs : Int) (f : String) :
    f ∈ staleTmpsOf d nowMs
      ↔ f ∈ d.map Prod.fst ∧ strEnds f ".tmp" = true
          ∧ isStale d f nowMs = true := by
  simp only [staleTmpsOf, List.mem_filter, and_assoc]

theorem markReferenced_filterKeys (d : Dir) (q : String → Bool)
    (h : ∀ f, isManifestFileName f = true → q f = true) :
    markReferenced (d.filter (fun p => q p.1)) = markReferenced d := by
  unfold markReferenced manifestNames
  rw [map_fst_filterKeys, List.filter_filter]
  have he : (d.map Prod.fst).filter (fun f => isManifestFileName f && q f)
      = (d.map Prod.fst).filter isManifestFileName := by
    apply List.filter_congr
    intro x _
    cases him : isManifestFileName x with
    | false => simp [him]
    | true => simp [him, h x him]
  rw [he]
  congr 1
  apply List.map_congr_left
  intro mf hmf
  have hq : q mf = true := h mf (List.mem_filter.mp hmf).2
  unfold refsOfManifest
  rw [lookupFile_filterKeys, if_pos hq]

/-! ### Claim theorems -/

/-- Specialization of lookupFile_filterKeys to the sweep filter of the
garbage collector. -/
theorem lookupFile_gcFilter (d : Dir) (A B : List String) (k : String) :
    lookupFile (d.filter (fun p => !(A.contains p.1) && !(B.contains p.1))) k
      = if (!(A.contains k) && !(B.contains k)) = true
        then lookupFile d k else none :=
  lookupFile_filterKeys d (fun g => !(A.contains g) && !(B.contains g)) k

/-- Specialization of map_fst_filterKeys to the sweep filter of the
garbage collector. -/
theorem map_fst_gcFilter (d : Dir) (A B : List String) :
    (d.filter (fun p => !(A.contains p.1) && !(B.contains p.1))).map Prod.fst
      = (d.map Prod.fst).filter (fun g => !(A.contains g) && !(B.contains g)) :=
  map_fst_filterKeys d (fun g => !(A.contains g) && !(B.contains g))

/-- C2: for a repository whose manifests reference exactly the digest
set R and whose blob store contains the blobs R and U with U disjoint
from R, one garbage-collection run deletes exactly the blobs in U
(whatever their mtimes), leaves every blob of R looked up unchanged, and
an immediately repeated run reclaims nothing new. -/
theorem runGarbageCollection_reachability (s : RegState) (nowMs : Int)
    (R U : List String)
    (hmark : ∀ f : String, f ∈ markReferenced s.files ↔ f ∈ R)
    (hR : ∀ r ∈ R, ∃ fl : FsFile, (r, fl) ∈ s.files ∧ isBlobFileName r = true)
    (hU : ∀ u ∈ U, ∃ fl : FsFile, (u, fl) ∈ s.files ∧ isBlobFileName u = true)
    (hdisj : ∀ u ∈ U, u ∉ R)
    (hcover : ∀ p ∈ s.files, isBlobFileName p.1 = true → p.1 ∈ R ∨ p.1 ∈ U) :
    (∀ u ∈ U, u ∈ (runGarbageCollection s nowMs).deleted ∧
        lookupFile (runGarbageCollection s nowMs).state.files u = none) ∧
    (∀ r ∈ R, lookupFile (runGarbageCollection s nowMs).state.files r
        = lookupFile s.files r) ∧
    (∀ f : String, isBlobFileName f = true →
        (f ∈ (runGarbageCollection s nowMs).deleted ↔ f ∈ U)) ∧
    (runGarbageCollection (runGarbageCollection s nowMs).state nowMs).deleted
      = [] := by
  have hgcfiles : (runGarbageCollection s nowMs).state.files
      = s.files.filter (fun p => !((deadBlobsOf s.files).contains p.1)
          && !((staleTmpsOf s.files nowMs).contains p.1)) := rfl
  have part1 : ∀ u ∈ U, u ∈ (runGarbageCollection s nowMs).deleted ∧
      lookupFile (runGarbageCollection s nowMs).state.files u = none := by
    intro u hu
    obtain ⟨fl, hmem, hblob⟩ := hU u hu
    have hnames : u ∈ s.files.map Prod.fst := List.mem_map_of_mem Prod.fst hmem
    have hnotref : u ∉ markReferenced s.files :=
      fun hh => hdisj u hu ((hmark u).mp hh)
    have hdead : u ∈ deadBlobsOf s.files :=
      (mem_deadBlobsOf s.files u).mpr ⟨hnames, hblob, hnotref⟩
    refine ⟨List.mem_append.mpr (Or.inl hdead), ?_⟩
    rw [hgcfiles, lookupFile_gcFilter]
    have hc : (deadBlobsOf s.files).contains u = true :=
      (containsStr_iff _ _).mpr hdead
    have hcond : (!((deadBlobsOf s.files).contains u)
        && !((staleTmpsOf s.files nowMs).contains u)) = false := by
      rw [hc]
      rfl
    rw [hcond]
    simp
  have part2 : ∀ r ∈ R,
      lookupFile (runGarbageCollection s nowMs).state.files r
        = lookupFile s.files r := by
    intro r hr
    obtain ⟨fl, hmem, hblob⟩ := hR r hr
    have hrref : r ∈ markReferenced s.files := (hmark r).mpr hr
    have hrdead : r ∉ deadBlobsOf s.files :=
      fun hh => ((mem_deadBlobsOf s.files r).mp hh).2.2 hrref
    have hblob3 : strStarts r "manifests-" = false ∧ strEnds r ".tmp" = false
        ∧ strEnds r ".json" = false := by
      simpa [isBlobFileName, Bool.and_eq_true, Bool.not_eq_true', and_assoc]
        using hblob
    have hrstale : r ∉ staleTmpsOf s.files nowMs := by
      intro hh
      have h4 := ((mem_staleTmpsOf s.files nowMs r).mp hh).2.1
      rw [hblob3.2.1] at h4
      cases h4
    rw [hgcfiles, lookupFile_gcFilter]
    have hc1 : (deadBlobsOf s.files).contains r = false := by
      cases hc : (deadBlobsOf s.files).contains r with
      | false => rfl
      | true => exact absurd ((containsStr_iff _ _).mp hc) hrdead
    have hc2 : (staleTmpsOf s.files nowMs).contains r = false := by
      cases hc : (staleTmpsOf s.files nowMs).contains r with
      | false => rfl
      | true => exact absurd ((containsStr_iff _ _).mp hc) hrstale
    have hcond : (!((deadBlobsOf s.files).contains r)
        && !((staleTmpsOf s.files nowMs).contains r)) = true := by
      rw [hc1, hc2]
      rfl
    rw [if_pos hcond]
  refine ⟨part1, part2, ?_, ?_⟩
  · intro f hblob
    constructor
    · intro hdel
      rcases List.mem_append.mp hdel with hd | hs
      · have h3 := (mem_deadBlobsOf s.files f).mp hd
        obtain ⟨p, hp, hpf⟩ := List.mem_map.mp h3.1
        rcases hcover p hp (by rw [hpf]; exact hblob) with hfr | hfu
        · exact absurd ((hmark f).mpr (hpf ▸ hfr)) h3.2.2
        · exact hpf ▸ hfu
      · have h4 := ((mem_staleTmpsOf s.files nowMs f).mp hs).2.1
        simp [isBlobFileName, h4] at hblob
    · intro hu
      exact (part1 f hu).1
  · have hkeepM : ∀ f, isManifestFileName f = true →
        (!((deadBlobsOf s.files).contains f)
          && !((staleTmpsOf s.files nowMs).contains f)) = true := by
      intro f hf
      have hf2 : strStarts f "manifests-" = true ∧ strEnds f ".json" = true := by
        simpa [isManifestFileName, Bool.and_eq_true] using hf
      have h1 : (deadBlobsOf s.files).contains f = false := by
        cases hc : (deadBlobsOf s.files).contains f with
        | false => rfl
        | true =>
            have := ((mem_deadBlobsOf s.files f).mp
              ((containsStr_iff _ _).mp hc)).2.1
            simp [isBlobFileName, hf2.1] at this
      have h2 : (staleTmpsOf s.files nowMs).contains f = false := by
        cases hc : (staleTmpsOf s.files nowMs).contains f with
        | false => rfl
        | true =>
            have := ((mem_staleTmpsOf s.files nowMs f).mp
              ((containsStr_iff _ _).mp hc)).2.1
            rw [strEnds_json_not_tmp f hf2.2] at this
            cases this
      rw [h1, h2]
      rfl
    have hmark2 : markReferenced ((runGarbageCollection s nowMs).state.files)
        = markReferenced s.files := by
      rw [hgcfiles]
      exact markReferenced_filterKeys s.files _ hkeepM
    show deadBlobsOf ((runGarbageCollection s nowMs).state.files)
        ++ staleTmpsOf ((runGarbageCollection s nowMs).state.files) nowMs = []
    have hnames2 : ((runGarbageCollection s nowMs).state.files).map Prod.fst
        = (s.files.map Prod.fst).filter
            (fun g => !((deadBlobsOf s.files).contains g)
              && !((staleTmpsOf s.files nowMs).contains g)) := by
      rw [hgcfiles]
      exact map_fst_gcFilter s.files _ _
    have hdead2 : deadBlobsOf ((runGarbageCollection s nowMs).state.files)
        = [] := by
      apply List.eq_nil_iff_forall_not_mem.mpr
      intro f hf
      have h5 := (mem_deadBlobsOf _ f).mp hf
      rw [hmark2] at h5
      have h6 := h5.1
      rw [hnames2] at h6
      have h7 := List.mem_filter.mp h6
      have h8 : f ∈ deadBlobsOf s.files :=
        (mem_deadBlobsOf s.files f).mpr ⟨h7.1, h5.2.1, h5.2.2⟩
      have h9 : (deadBlobsOf s.files).contains f = true :=
        (containsStr_iff _ _).mpr h8
      have h10 := h7.2
      rw [h9] at h10
      simp at h10
    have hstale2 : staleTmpsOf ((runGarbageCollection s nowMs).state.files)
        nowMs = [] := by
      apply List.eq_nil_iff_forall_not_mem.mpr
      intro f hf
      have h5 := (mem_staleTmpsOf _ nowMs f).mp hf
      have h6 := h5.1
      rw [hnames2] at h6
      have h7 := List.mem_filter.mp h6
      have hkeep := h7.2
      have hlk : lookupFile ((runGarbageCollection s nowMs).state.files) f
          = lookupFile s.files f := by
        rw [hgcfiles, lookupFile_gcFilter, if_pos hkeep]
      have hstaleEq : isStale ((runGarbageCollection s nowMs).state.files) f
          nowMs = isStale s.files f nowMs := by
        unfold isStale
        rw [hlk]
      have h8 : f ∈ staleTmpsOf s.files nowMs :=
        (mem_staleTmpsOf s.files nowMs f).mpr
          ⟨h7.1, h5.2.1, by rw [← hstaleEq]; exact h5.2.2⟩
      have h9 : (staleTmpsOf s.files nowMs).contains f = true :=
        (containsStr_iff _ _).mpr h8
      rw [h9] at hkeep
      simp at hkeep
    rw [hdead2, hstale2]
    rfl

/-- Demo repository for the C2 witness: one manifest referencing
sha256:r1, the referenced blob r1 and the unreferenced blob u1. -/
def gcDemoState : RegState :=
  { files :=
      [("manifests-v1.json",
          ⟨"\x7b\"config\":\x7b\"digest\":\"sha256:r1\"\x7d\x7d", 0⟩),
       ("r1", ⟨"keep", 0⟩),
       ("u1", ⟨"junk", 0⟩)],
    manifestCache := none }

/-- Witness for C2 at the demo repository with R = [r1], U = [u1]. -/
theorem runGarbageCollection_reachability_witness :
    (∀ u ∈ (["u1"] : List String),
        u ∈ (runGarbageCollection gcDemoState 0).deleted ∧
        lookupFile (runGarbageCollection gcDemoState 0).state.files u = none) ∧
    (∀ r ∈ (["r1"] : List String),
        lookupFile (runGarbageCollection gcDemoState 0).state.files r
          = lookupFile gcDemoState.files r) ∧
    (∀ f : String, isBlobFileName f = true →
        (f ∈ (runGarbageCollection gcDemoState 0).deleted
          ↔ f ∈ (["u1"] : List String))) ∧
    (runGarbageCollection (runGarbageCollection gcDemoState 0).state 0).deleted
      = [] :=
  runGarbageCollection_reachability gcDemoState 0 ["r1"] ["u1"]
    (fun f => by
      rw [show markReferenced gcDemoState.files = ["r1"] from rfl])
    (by
      intro r hr
      rw [List.mem_singleton] at hr
      subst hr
      exact ⟨⟨"keep", 0⟩, by decide, by decide⟩)
    (by
      intro u hu
      rw [List.mem_singleton] at hu
      subst hu
      exact ⟨⟨"junk", 0⟩, by decide, by decide⟩)
    (by decide)
    (by decide)

/-- The claimed hash used in the C1 failing input: 64 zeros, which is
not the sha256 of the uploaded content. -/
def zeros64 : String :=
  "0000000000000000000000000000000000000000000000000000000000000000"

/-- C1 (code bug): completeBlobUpload never computes a digest of the
receptacle content.  With accumulated content hello and a claimed digest
whose hash (64 zeros) differs from sha256 of hello, finalize still
reports success, consumes the receptacle and publishes the mismatched
content retrievably under the claimed digest, where the specification
requires a DigestMismatch failure, an unchanged session and no blob
retrievable under the claimed digest. -/
theorem completeBlobUpload_publishes_despite_digest_mismatch :
    ¬ sha256hexStr "hello" = zeros64 ∧
    (completeBlobUpload ⟨[("u.tmp", ⟨"hello", 0⟩)], none⟩ "u"
        ("sha256:" ++ zeros64)).2 = ⟨true, none⟩ ∧
    readBlob (completeBlobUpload ⟨[("u.tmp", ⟨"hello", 0⟩)], none⟩ "u"
        ("sha256:" ++ zeros64)).1 ("sha256:" ++ zeros64) = some "hello" ∧
    lookupFile (completeBlobUpload ⟨[("u.tmp", ⟨"hello", 0⟩)], none⟩ "u"
        ("sha256:" ++ zeros64)).1.files "u.tmp" = none :=
  ⟨by decide, by decide, by decide, by decide⟩

/-- C4 (code bug): finalize of a session id that names no live
receptacle (never started, or already finalized) reports success instead
of a SessionNotFound-class failure: on an empty repository it succeeds
and changes nothing, and after a successful finalize a second finalize
of the same session succeeds again without touching the store. -/
theorem completeBlobUpload_dead_session_reports_success :
    (completeBlobUpload ⟨[], none⟩ "v" "sha256:bb").2 = ⟨true, none⟩ ∧
    (completeBlobUpload ⟨[], none⟩ "v" "sha256:bb").1.files = [] ∧
    (completeBlobUpload ⟨[("u.tmp", ⟨"hi", 0⟩)], none⟩ "u" "sha256:aa").2
      = ⟨true, none⟩ ∧
    lookupFile (completeBlobUpload ⟨[("u.tmp", ⟨"hi", 0⟩)], none⟩ "u"
        "sha256:aa").1.files "u.tmp" = none ∧
    (completeBlobUpload
        (completeBlobUpload ⟨[("u.tmp", ⟨"hi", 0⟩)], none⟩ "u" "sha256:aa").1
        "u" "sha256:aa").2 = ⟨true, none⟩ ∧
    (completeBlobUpload
        (completeBlobUpload ⟨[("u.tmp", ⟨"hi", 0⟩)], none⟩ "u" "sha256:aa").1
        "u" "sha256:aa").1.files
      = (completeBlobUpload ⟨[("u.tmp", ⟨"hi", 0⟩)], none⟩ "u"
          "sha256:aa").1.files :=
  ⟨by decide, by decide, by decide, by decide, by decide, by decide⟩

/-- C7: a PATCH append against a session id whose receptacle file does
not exist fails with the SessionNotFound-class 404 and changes no state;
in particular, after a finalize (whose published file name differs from
the receptacle name, as it always does for hex digests), a further
append against the finalized session fails the same way. -/
theorem appendChunk_dead_session_fails (s : RegState)
    (uuid chunk : String) (now : Int)
    (hnd : (s.files.map Prod.fst).Nodup) :
    (lookupFile s.files (uuid ++ ".tmp") = none →
        appendChunk s uuid chunk now = (s, none)) ∧
    (∀ dg : String, ¬ digestHash dg = uuid ++ ".tmp" →
        fileExistsIn s.files (uuid ++ ".tmp") = true →
        appendChunk (completeBlobUpload s uuid dg).1 uuid chunk now
          = ((completeBlobUpload s uuid dg).1, none)) := by
  constructor
  · intro h
    simp [appendChunk, h]
  · intro dg hne hex
    obtain ⟨f, hf⟩ : ∃ f, lookupFile s.files (uuid ++ ".tmp") = some f := by
      cases hl : lookupFile s.files (uuid ++ ".tmp") with
      | none => simp [fileExistsIn, hl] at hex
      | some f => exact ⟨f, rfl⟩
    have hcb : (completeBlobUpload s uuid dg).1.files
        = setFile (removeFile s.files (uuid ++ ".tmp")) (digestHash dg) f := by
      simp only [completeBlobUpload, hex, if_true, renameFile, hf]
      rw [if_neg (fun he => hne he.symm)]
    have hl2 : lookupFile (completeBlobUpload s uuid dg).1.files
        (uuid ++ ".tmp") = none := by
      rw [hcb, lookupFile_setFile_ne _ _ _ _ hne]
      exact lookupFile_removeFile_self s.files _ hnd
    simp [appendChunk, hl2]

/-- Witness for C7: a repository holding the session w.tmp. -/
theorem appendChunk_dead_session_fails_witness :
    (lookupFile ([("w.tmp", ⟨"x", 0⟩)] : Dir) ("w" ++ ".tmp") = none →
        appendChunk ⟨[("w.tmp", ⟨"x", 0⟩)], none⟩ "w" "c" 5
          = (⟨[("w.tmp", ⟨"x", 0⟩)], none⟩, none)) ∧
    (∀ dg : String, ¬ digestHash dg = "w" ++ ".tmp" →
        fileExistsIn ([("w.tmp", ⟨"x", 0⟩)] : Dir) ("w" ++ ".tmp") = true →
        appendChunk (completeBlobUpload ⟨[("w.tmp", ⟨"x", 0⟩)], none⟩ "w" dg).1
            "w" "c" 5
          = ((completeBlobUpload ⟨[("w.tmp", ⟨"x", 0⟩)], none⟩ "w" dg).1,
             none)) :=
  appendChunk_dead_session_fails ⟨[("w.tmp", ⟨"x", 0⟩)], none⟩ "w" "c" 5
    (by decide)

/-- C8: one garbage-collection run deletes exactly the tmp receptacles
whose mtime is older than one hour before now, records them as
reclaimed, and leaves younger receptacles in place unchanged. -/
theorem gc_stale_session_sweep (s : RegState) (nowMs : Int)
    (f : String) (fl : FsFile)
    (hnd : (s.files.map Prod.fst).Nodup)
    (hmem : (f, fl) ∈ s.files)
    (htmp : strEnds f ".tmp" = true) :
    (fl.mtimeMs < nowMs - 3600000 →
        f ∈ (runGarbageCollection s nowMs).deleted ∧
        lookupFile (runGarbageCollection s nowMs).state.files f = none) ∧
    (¬ fl.mtimeMs < nowMs - 3600000 →
        f ∉ (runGarbageCollection s nowMs).deleted ∧
        lookupFile (runGarbageCollection s nowMs).state.files f = some fl) := by
  have hgcfiles : (runGarbageCollection s nowMs).state.files
      = s.files.filter (fun p => !((deadBlobsOf s.files).contains p.1)
          && !((staleTmpsOf s.files nowMs).contains p.1)) := rfl
  have hlk : lookupFile s.files f = some fl :=
    lookupFile_of_mem_nodup _ _ _ hmem hnd
  have hnames : f ∈ s.files.map Prod.fst := List.mem_map_of_mem Prod.fst hmem
  have hnotdead : f ∉ deadBlobsOf s.files := by
    intro hh
    have hb := ((mem_deadBlobsOf _ _).mp hh).2.1
    simp [isBlobFileName, htmp] at hb
  constructor
  · intro hst
    have hstale : isStale s.files f nowMs = true := by
      unfold isStale
      rw [hlk]
      simpa using hst
    have hs : f ∈ staleTmpsOf s.files nowMs :=
      (mem_staleTmpsOf s.files nowMs f).mpr ⟨hnames, htmp, hstale⟩
    refine ⟨List.mem_append.mpr (Or.inr hs), ?_⟩
    rw [hgcfiles, lookupFile_gcFilter]
    have hc : (staleTmpsOf s.files nowMs).contains f = true :=
      (containsStr_iff _ _).mpr hs
    have hcond : (!((deadBlobsOf s.files).contains f)
        && !((staleTmpsOf s.files nowMs).contains f)) = false := by
      rw [hc]
      simp
    rw [hcond]
    simp
  · intro hst
    have hstale : isStale s.files f nowMs = false := by
      unfold isStale
      rw [hlk]
      simpa using hst
    have hns : f ∉ staleTmpsOf s.files nowMs := by
      intro hh
      have := ((mem_staleTmpsOf s.files nowMs f).mp hh).2.2
      rw [hstale] at this
      cases this
    refine ⟨?_, ?_⟩
    · intro hh
      rcases List.mem_append.mp hh with h1 | h2
      · exact hnotdead h1
      · exact hns h2
    · rw [hgcfiles, lookupFile_gcFilter]
      have hc1 : (deadBlobsOf s.files).contains f = false := by
        cases hc : (deadBlobsOf s.files).contains f with
        | false => rfl
        | true => exact absurd ((containsStr_iff _ _).mp hc) hnotdead
      have hc2 : (staleTmpsOf s.files nowMs).contains f = false := by
        cases hc : (staleTmpsOf s.files nowMs).contains f with
        | false => rfl
        | true => exact absurd ((containsStr_iff _ _).mp hc) hns
      have hcond : (!((deadBlobsOf s.files).contains f)
          && !((staleTmpsOf s.files nowMs).contains f)) = true := by
        rw [hc1, hc2]
        rfl
      rw [if_pos hcond]
      exact hlk

/-- Witness for C8: a two-hour-old receptacle is reclaimed when GC runs
at time 7200000. -/
theorem gc_stale_session_sweep_witness :
    (((0 : Int) < 7200000 - 3600000) →
        "a.tmp" ∈ (runGarbageCollection ⟨[("a.tmp", ⟨"x", 0⟩)], none⟩
            7200000).deleted ∧
        lookupFile (runGarbageCollection ⟨[("a.tmp", ⟨"x", 0⟩)], none⟩
            7200000).state.files "a.tmp" = none) ∧
    (¬ ((0 : Int) < 7200000 - 3600000) →
        "a.tmp" ∉ (runGarbageCollection ⟨[("a.tmp", ⟨"x", 0⟩)], none⟩
            7200000).deleted ∧
        lookupFile (runGarbageCollection ⟨[("a.tmp", ⟨"x", 0⟩)], none⟩
            7200000).state.files "a.tmp" = some ⟨"x", 0⟩) :=
  gc_stale_session_sweep ⟨[("a.tmp", ⟨"x", 0⟩)], none⟩ 7200000 "a.tmp"
    ⟨"x", 0⟩ (by decide) (by decide) (by decide)

/-- C9: blob addressing only ever uses split(colon)[1] of the digest, so
two digest strings with the same part after their first colon resolve to
the same storage path, and existence check, read, finalize publication
and delete behave identically for them. -/
theorem blob_addressing_ignores_algorithm (s : RegState)
    (uuid d1 d2 : String)
    (h1 : hasColon d1 = true) (h2 : hasColon d2 = true)
    (hafter : afterFirstColon d1 = afterFirstColon d2) :
    getBlobPath d1 = getBlobPath d2 ∧
    checkBlobExists s d1 = checkBlobExists s d2 ∧
    readBlob s d1 = readBlob s d2 ∧
    completeBlobUpload s uuid d1 = completeBlobUpload s uuid d2 ∧
    deleteBlob s d1 = deleteBlob s d2 := by
  have hd : digestHash d1 = digestHash d2 :=
    digestHash_eq_of_afterFirstColon d1 d2 h1 h2 hafter
  refine ⟨?_, ?_, ?_, ?_, ?_⟩ <;>
    simp only [getBlobPath, checkBlobExists, readBlob, completeBlobUpload,
      deleteBlob, hd]

/-- Witness for C9: sha256:ab and md5:ab address the same blob file. -/
theorem blob_addressing_ignores_algorithm_witness :
    getBlobPath "sha256:ab" = getBlobPath "md5:ab" ∧
    checkBlobExists ⟨[("ab", ⟨"blob", 0⟩)], none⟩ "sha256:ab"
      = checkBlobExists ⟨[("ab", ⟨"blob", 0⟩)], none⟩ "md5:ab" ∧
    readBlob ⟨[("ab", ⟨"blob", 0⟩)], none⟩ "sha256:ab"
      = readBlob ⟨[("ab", ⟨"blob", 0⟩)], none⟩ "md5:ab" ∧
    completeBlobUpload ⟨[("ab", ⟨"blob", 0⟩)], none⟩ "u" "sha256:ab"
      = completeBlobUpload ⟨[("ab", ⟨"blob", 0⟩)], none⟩ "u" "md5:ab" ∧
    deleteBlob ⟨[("ab", ⟨"blob", 0⟩)], none⟩ "sha256:ab"
      = deleteBlob ⟨[("ab", ⟨"blob", 0⟩)], none⟩ "md5:ab" :=
  blob_addressing_ignores_algorithm ⟨[("ab", ⟨"blob", 0⟩)], none⟩ "u"
    "sha256:ab" "md5:ab" (by decide) (by decide) (by decide)

/-- C10 counterexample: a stale receptacle named manifests-a.tmp starts
with manifests- yet is deleted by one garbage-collection run, so not
every file whose name starts with manifests- survives GC. -/
theorem runGarbageCollection_deletes_manifest_named_tmp :
    strStarts "manifests-a.tmp" "manifests-" = true ∧
    lookupFile ([("manifests-a.tmp", ⟨"x", 0⟩)] : Dir) "manifests-a.tmp"
      = some ⟨"x", 0⟩ ∧
    "manifests-a.tmp" ∈ (runGarbageCollection
        ⟨[("manifests-a.tmp", ⟨"x", 0⟩)], none⟩ 5000000000).deleted ∧
    lookupFile (runGarbageCollection
        ⟨[("manifests-a.tmp", ⟨"x", 0⟩)], none⟩ 5000000000).state.files
      "manifests-a.tmp" = none :=
  ⟨by decide, by decide, by decide, by decide⟩

/-- C10 as amended: every file whose name starts with manifests- or ends
with .json and does not end with .tmp survives one garbage-collection
run unchanged, and everything GC deletes is either a file outside all
three patterns (a blob-sweep victim) or a stale tmp receptacle. -/
theorem gc_preserves_manifest_documents (s : RegState) (nowMs : Int)
    (hnd : (s.files.map Prod.fst).Nodup) :
    (∀ (f : String) (fl : FsFile), (f, fl) ∈ s.files →
        (strStarts f "manifests-" = true ∨ strEnds f ".json" = true) →
        strEnds f ".tmp" = false →
        lookupFile (runGarbageCollection s nowMs).state.files f = some fl ∧
        f ∉ (runGarbageCollection s nowMs).deleted) ∧
    (∀ g ∈ (runGarbageCollection s nowMs).deleted,
        (strStarts g "manifests-" = false ∧ strEnds g ".tmp" = false
          ∧ strEnds g ".json" = false) ∨
        (strEnds g ".tmp" = true ∧ isStale s.files g nowMs = true)) := by
  have hgcfiles : (runGarbageCollection s nowMs).state.files
      = s.files.filter (fun p => !((deadBlobsOf s.files).contains p.1)
          && !((staleTmpsOf s.files nowMs).contains p.1)) := rfl
  constructor
  · intro f fl hmem hpat htmp
    have hlk : lookupFile s.files f = some fl :=
      lookupFile_of_mem_nodup _ _ _ hmem hnd
    have hnotdead : f ∉ deadBlobsOf s.files := by
      intro hh
      have hb := ((mem_deadBlobsOf _ _).mp hh).2.1
      rcases hpat with hp | hp
      · simp [isBlobFileName, hp] at hb
      · simp [isBlobFileName, hp] at hb
    have hnotstale : f ∉ staleTmpsOf s.files nowMs := by
      intro hh
      have := ((mem_staleTmpsOf _ _ _).mp hh).2.1
      rw [htmp] at this
      cases this
    have hc1 : (deadBlobsOf s.files).contains f = false := by
      cases hc : (deadBlobsOf s.files).contains f with
      | false => rfl
      | true => exact absurd ((containsStr_iff _ _).mp hc) hnotdead
    have hc2 : (staleTmpsOf s.files nowMs).contains f = false := by
      cases hc : (staleTmpsOf s.files nowMs).contains f with
      | false => rfl
      | true => exact absurd ((containsStr_iff _ _).mp hc) hnotstale
    refine ⟨?_, ?_⟩
    · rw [hgcfiles, lookupFile_gcFilter]
      have hcond : (!((deadBlobsOf s.files).contains f)
          && !((staleTmpsOf s.files nowMs).contains f)) = true := by
        rw [hc1, hc2]
        rfl
      rw [if_pos hcond]
      exact hlk
    · intro hh
      rcases List.mem_append.mp hh with hd | hs
      · exact hnotdead hd
      · exact hnotstale hs
  · intro g hg
    rcases List.mem_append.mp hg with hd | hs
    · left
      have hb := ((mem_deadBlobsOf _ _).mp hd).2.1
      simpa [isBlobFileName, Bool.and_eq_true, Bool.not_eq_true', and_assoc]
        using hb
    · right
      have h4 := (mem_staleTmpsOf _ _ _).mp hs
      exact ⟨h4.2.1, h4.2.2⟩

/-- Witness for C10 as amended, on a repository with one manifest, one
stray blob and no tmp files. -/
theorem gc_preserves_manifest_documents_witness :
    (∀ (f : String) (fl : FsFile),
        (f, fl) ∈ ([("manifests-v.json", ⟨"\x7b\x7d", 0⟩),
            ("stray", ⟨"b", 0⟩)] : Dir) →
        (strStarts f "manifests-" = true ∨ strEnds f ".json" = true) →
        strEnds f ".tmp" = false →
        lookupFile (runGarbageCollection ⟨[("manifests-v.json",
            ⟨"\x7b\x7d", 0⟩), ("stray", ⟨"b", 0⟩)], none⟩
            5000000000).state.files f = some fl ∧
        f ∉ (runGarbageCollection ⟨[("manifests-v.json", ⟨"\x7b\x7d", 0⟩),
            ("stray", ⟨"b", 0⟩)], none⟩ 5000000000).deleted) ∧
    (∀ g ∈ (runGarbageCollection ⟨[("manifests-v.json", ⟨"\x7b\x7d", 0⟩),
        ("stray", ⟨"b", 0⟩)], none⟩ 5000000000).deleted,
        (strStarts g "manifests-" = false ∧ strEnds g ".tmp" = false
          ∧ strEnds g ".json" = false) ∨
        (strEnds g ".tmp" = true ∧
          isStale ([("manifests-v.json", ⟨"\x7b\x7d", 0⟩),
            ("stray", ⟨"b", 0⟩)] : Dir) g 5000000000 = true)) :=
  gc_preserves_manifest_documents
    ⟨[("manifests-v.json", ⟨"\x7b\x7d", 0⟩), ("stray", ⟨"b", 0⟩)], none⟩
    5000000000 (by decide)

/-- C3 counterexample: for the manifest byte sequence 0 (valid JSON, but
a falsy value), the put under tag latest returns a canonical digest, the
get by tag succeeds, yet the get by the returned digest string is
NotFound: the cache only serves truthy manifests and there is no
digest-addressed entry on disk. -/
theorem getManifest_digest_lookup_fails_on_falsy_manifest :
    (putManifest ⟨[], none⟩ "latest" "0" 0).2
      = some ("sha256:" ++ sha256hexStr "0") ∧
    (getManifest (putManifest ⟨[], none⟩ "latest" "0" 0).1 "latest").2
      = ManifestResult.found (Json.num 0) defaultMediaType ∧
    (getManifest (putManifest ⟨[], none⟩ "latest" "0" 0).1
        ("sha256:" ++ sha256hexStr "0")).2 = ManifestResult.notFound :=
  ⟨by decide, rfl, rfl⟩

/-- C3 as amended: for every manifest byte sequence whose parsed JSON
value is truthy (every real manifest is a JSON object, which is truthy),
after a put under a tag returns the canonical digest, a get with the tag
and a get with the digest string both succeed and return the same stored
manifest. -/
theorem manifest_dual_addressing_after_put (s : RegState)
    (tag body : String) (now : Int) (m : Json)
    (hparse : parseJson body = some m) (htruthy : jsTruthy m = true) :
    (putManifest s tag body now).2
      = some ("sha256:" ++ sha256hexStr (stringifyJson m)) ∧
    (getManifest (putManifest s tag body now).1 tag).2
      = ManifestResult.found m (mediaTypeOf m) ∧
    (getManifest (putManifest s tag body now).1
        ("sha256:" ++ sha256hexStr (stringifyJson m))).2
      = ManifestResult.found m (mediaTypeOf m) := by
  have hput : putManifest s tag body now
      = ({ files := setFile s.files (getManifestFilePath tag) ⟨body, now⟩,
           manifestCache := some m },
         some ("sha256:" ++ sha256hexStr (stringifyJson m))) := by
    simp only [putManifest, saveManifestToCache, lookupFile_setFile_self,
      hparse]
  rw [hput]
  refine ⟨rfl, ?_, ?_⟩ <;>
    simp only [getManifest, htruthy, if_true]

/-- Witness for C3 as amended at the empty JSON object manifest. -/
theorem manifest_dual_addressing_after_put_witness :
    (putManifest ⟨[], none⟩ "latest" "\x7b\x7d" 0).2
      = some ("sha256:" ++ sha256hexStr (stringifyJson (Json.obj .nil))) ∧
    (getManifest (putManifest ⟨[], none⟩ "latest" "\x7b\x7d" 0).1
        "latest").2
      = ManifestResult.found (Json.obj .nil) (mediaTypeOf (Json.obj .nil)) ∧
    (getManifest (putManifest ⟨[], none⟩ "latest" "\x7b\x7d" 0).1
        ("sha256:" ++ sha256hexStr (stringifyJson (Json.obj .nil)))).2
      = ManifestResult.found (Json.obj .nil) (mediaTypeOf (Json.obj .nil)) :=
  manifest_dual_addressing_after_put ⟨[], none⟩ "latest" "\x7b\x7d" 0
    (Json.obj .nil) rfl rfl

/-- C5 counterexample: the canonical digest of a manifest put is not
computed over the exact bytes received: putting a body with an interior
space yields the digest of its whitespace-free re-serialization, which
differs from the digest of its own bytes, and a byte-distinct body with
the same parse yields the very same digest. -/
theorem manifest_digest_ignores_exact_bytes :
    (putManifest ⟨[], none⟩ "t" "\x7b\"a\": 1\x7d" 0).2
      = some ("sha256:" ++ sha256hexStr "\x7b\"a\":1\x7d") ∧
    (putManifest ⟨[], none⟩ "t" "\x7b\"a\":1\x7d" 0).2
      = some ("sha256:" ++ sha256hexStr "\x7b\"a\":1\x7d") ∧
    ¬ ("\x7b\"a\": 1\x7d" : String) = "\x7b\"a\":1\x7d" ∧
    ¬ sha256hexStr "\x7b\"a\":1\x7d" = sha256hexStr "\x7b\"a\": 1\x7d" :=
  ⟨by decide, by decide, by decide, by decide⟩

/-- C5 as amended: the canonical digest of a manifest put is sha256 of
the JSON.stringify re-serialization of the parsed body, deterministically:
byte-identical puts agree, and every body parsing to the same JSON value
receives that same digest (rather than a digest of its own bytes). -/
theorem manifest_digest_from_reserialization (s : RegState)
    (ref body : String) (now : Int) (m : Json)
    (hparse : parseJson body = some m) :
    (putManifest s ref body now).2
      = some ("sha256:" ++ sha256hexStr (stringifyJson m)) ∧
    (∀ (s2 : RegState) (ref2 body2 : String) (now2 : Int),
        parseJson body2 = some m →
        (putManifest s2 ref2 body2 now2).2
          = (putManifest s ref body now).2) := by
  have main : ∀ (s2 : RegState) (ref2 body2 : String) (now2 : Int),
      parseJson body2 = some m →
      (putManifest s2 ref2 body2 now2).2
        = some ("sha256:" ++ sha256hexStr (stringifyJson m)) := by
    intro s2 ref2 body2 now2 h2
    simp only [putManifest, saveManifestToCache, lookupFile_setFile_self, h2]
  exact ⟨main s ref body now hparse,
    fun s2 ref2 body2 now2 h2 =>
      (main s2 ref2 body2 now2 h2).trans (main s ref body now hparse).symm⟩

/-- Witness for C5 as amended at a one-field object manifest. -/
theorem manifest_digest_from_reserialization_witness :
    (putManifest ⟨[], none⟩ "t" "\x7b\"a\": 1\x7d" 0).2
      = some ("sha256:" ++ sha256hexStr
          (stringifyJson (Json.obj (.cons "a" (Json.num 1) .nil)))) ∧
    (∀ (s2 : RegState) (ref2 body2 : String) (now2 : Int),
        parseJson body2 = some (Json.obj (.cons "a" (Json.num 1) .nil)) →
        (putManifest s2 ref2 body2 now2).2
          = (putManifest ⟨[], none⟩ "t" "\x7b\"a\": 1\x7d" 0).2) :=
  manifest_digest_from_reserialization ⟨[], none⟩ "t" "\x7b\"a\": 1\x7d" 0
    (Json.obj (.cons "a" (Json.num 1) .nil)) rfl

/-- Accumulation invariant of the PATCH handler: starting from a state
whose receptacle holds some file, appending a chunk sequence leaves the
receptacle holding the old content followed by the concatenation, and
the i-th reported offset is the byte length of the content after the
first i+1 chunks. -/
theorem appendChunks_spec (cs : List String) :
    ∀ (s : RegState) (uuid : String) (now : Int) (f : FsFile),
    lookupFile s.files (uuid ++ ".tmp") = some f →
    ((lookupFile (appendChunks s uuid cs now).1.files
        (uuid ++ ".tmp")).map FsFile.content
      = some (f.content ++ joinStr cs)) ∧
    (∀ i : Nat, i < cs.length →
        (appendChunks s uuid cs now).2.getD i none
          = some (byteLen f.content + ((cs.take (i + 1)).map byteLen).sum)) := by
  induction cs with
  | nil =>
      intro s uuid now f hf
      refine ⟨?_, ?_⟩
      · simp [appendChunks, hf, joinStr]
      · intro i hi
        simp at hi
  | cons c cs ih =>
      intro s uuid now f hf
      have hstep : appendChunk s uuid c now
          = ({ s with
                files := setFile s.files (uuid ++ ".tmp")
                    (FsFile.mk (f.content ++ c) now) },
             some (byteLen (f.content ++ c))) := by
        simp only [appendChunk, hf]
      have hlk2 : lookupFile
          (setFile s.files (uuid ++ ".tmp") (FsFile.mk (f.content ++ c) now))
          (uuid ++ ".tmp") = some (FsFile.mk (f.content ++ c) now) :=
        lookupFile_setFile_self _ _ _
      obtain ⟨ih1, ih2⟩ := ih { s with
          files := setFile s.files (uuid ++ ".tmp")
              (FsFile.mk (f.content ++ c) now) } uuid now
          (FsFile.mk (f.content ++ c) now) hlk2
      constructor
      · show (lookupFile (appendChunks s uuid (c :: cs) now).1.files
            (uuid ++ ".tmp")).map FsFile.content = _
        simp only [appendChunks, hstep]
        rw [ih1]
        simp [joinStr, String.append_assoc]
      · intro i hi
        cases i with
        | zero =>
            simp only [appendChunks, hstep, List.getD_cons_zero,
              List.take, List.map_cons, List.map_nil, List.sum_cons,
              List.sum_nil, byteLen_append]
            simp [List.take_zero]
        | succ j =>
            have hj : j < cs.length := by
              simpa using hi
            show (appendChunks s uuid (c :: cs) now).2.getD (j + 1) none = _
            simp only [appendChunks, hstep, List.getD_cons_succ]
            rw [ih2 j hj]
            simp only [List.take_succ_cons, List.map_cons, List.sum_cons,
              byteLen_append]
            congr 1
            omega

/-- C6: for every chunk sequence, each PATCH append is applied in full
and in order: after the i-th append the reported offset is the total
byte length of the chunks so far; finalizing with the sha256 digest of
the concatenation succeeds; and the published blob holds exactly the
concatenation, whatever the chunk boundaries were. -/
theorem upload_accumulation (s : RegState) (uuid : String)
    (cs : List String) (now : Int) :
    (∀ i : Nat, i < cs.length →
        (appendChunks (createUploadSession s uuid now) uuid cs now).2.getD
            i none
          = some (((cs.take (i + 1)).map byteLen).sum)) ∧
    ((lookupFile (appendChunks (createUploadSession s uuid now) uuid cs
        now).1.files (uuid ++ ".tmp")).map FsFile.content
      = some (joinStr cs)) ∧
    ((completeBlobUpload
        (appendChunks (createUploadSession s uuid now) uuid cs now).1 uuid
        ("sha256:" ++ sha256hexStr (joinStr cs))).2 = ⟨true, none⟩) ∧
    (readBlob (completeBlobUpload
        (appendChunks (createUploadSession s uuid now) uuid cs now).1 uuid
        ("sha256:" ++ sha256hexStr (joinStr cs))).1
        ("sha256:" ++ sha256hexStr (joinStr cs)) = some (joinStr cs)) := by
  have hcreate : lookupFile (createUploadSession s uuid now).files
      (uuid ++ ".tmp") = some ⟨"", now⟩ := by
    simp [createUploadSession, lookupFile_setFile_self]
  obtain ⟨h1, h2⟩ := appendChunks_spec cs (createUploadSession s uuid now)
    uuid now ⟨"", now⟩ hcreate
  have hjoin : ("" : String) ++ joinStr cs = joinStr cs := rfl
  rw [hjoin] at h1
  obtain ⟨fl, hfl, hflc⟩ : ∃ fl, lookupFile (appendChunks
      (createUploadSession s uuid now) uuid cs now).1.files
      (uuid ++ ".tmp") = some fl ∧ fl.content = joinStr cs := by
    cases hl : lookupFile (appendChunks (createUploadSession s uuid now)
        uuid cs now).1.files (uuid ++ ".tmp") with
    | none => rw [hl] at h1; simp at h1
    | some fl =>
        refine ⟨fl, rfl, ?_⟩
        rw [hl] at h1
        simpa using h1
  have hzero : byteLen "" = 0 := rfl
  have hhash : digestHash ("sha256:" ++ sha256hexStr (joinStr cs))
      = sha256hexStr (joinStr cs) :=
    digestHash_sha256_concat _ (sha256hex_no_colon _)
  have hne : ¬ (uuid ++ ".tmp") = digestHash ("sha256:"
      ++ sha256hexStr (joinStr cs)) := by
    rw [hhash]
    intro he
    have hdot : '.' ∈ (sha256hexStr (joinStr cs)).data := by
      rw [← he, String.data_append]
      exact List.mem_append.mpr (Or.inr (by decide))
    exact (mem_sha256hex '.' _ hdot).2 rfl
  have hex : fileExistsIn (appendChunks (createUploadSession s uuid now)
      uuid cs now).1.files (uuid ++ ".tmp") = true := by
    rw [fileExistsIn, hfl]
    rfl
  have hfin : (completeBlobUpload (appendChunks (createUploadSession s
      uuid now) uuid cs now).1 uuid
      ("sha256:" ++ sha256hexStr (joinStr cs))).1.files
      = setFile (removeFile (appendChunks (createUploadSession s uuid now)
          uuid cs now).1.files (uuid ++ ".tmp"))
        (digestHash ("sha256:" ++ sha256hexStr (joinStr cs))) fl := by
    simp only [completeBlobUpload, hex, if_true, renameFile, hfl]
    rw [if_neg hne]
  refine ⟨?_, h1, ?_, ?_⟩
  · intro i hi
    rw [h2 i hi, hzero]
    simp
  · simp only [completeBlobUpload, hex, if_true]
  · unfold readBlob getBlobPath
    rw [hfin, lookupFile_setFile_self]
    simp [hflc]

end MyRegistry

